import Mathlib

/-!
Verification development for the monorepo-benchmarks pipeline.

Shallow embedding of the TypeScript sources:
  * `scripts/benchmark-single-tool.ts` (retry policy, concurrency advisor,
    per-tool benchmark loop, stats),
  * `scripts/benchmark-json.ts` (its own concurrency advisor and fallback runner),
  * `scripts/compare-and-update-readme.ts` (significance / regression analysis),
  * the combine-results script (result aggregation).

JavaScript numbers are modelled as exact rationals (`ℚ`); machine floating
point rounding plays no role in any of the verified properties.  Process
execution is modelled by an oracle function supplied as a parameter: the
embedding records which argument lists are handed to the spawn primitive so
that invocation counts and argument contents can be reasoned about.  Console
logging has no observable effect on any returned value and is omitted.
-/

/-- The fixed closed set of benchmarked tools (`ToolName` in `scripts/types.ts`). -/
inductive ToolName where
  | nx
  | turbo
  | lerna
  | lage
  | moon
deriving DecidableEq, Repr, Fintype

/-- Embedding of `SpawnResult` from `scripts/types.ts`: exit status (`null` when killed by a
signal), the signal, and captured output streams. -/
structure SpawnResult where
  status : Option ℤ
  signal : Option String
  stdout : String
  stderr : String
deriving DecidableEq, Repr

/-- Embedding of `ToolResults` from `scripts/types.ts`. -/
structure ToolResults where
  average : ℚ
  total : ℚ
  runs : List ℚ
  min : ℚ
  max : ℚ
deriving DecidableEq, Repr

/-- Embedding of `BenchmarkResults` from `scripts/types.ts`: the aggregated dataset.  The
`tools` record with its fixed key set is modelled as a total function from
`ToolName`; `comparisons` (`Record<string, number>`) as an association list. -/
structure BenchmarkResults where
  timestamp : String
  date : String
  runs : ℕ
  tools : ToolName → ToolResults
  comparisons : List (String × ℚ)

/-- The `SingleToolResult` artifact produced per tool and read by the combining
script. -/
structure SingleToolResult where
  tool : ToolName
  timestamp : String
  date : String
  runs : ℕ
  results : ToolResults
deriving DecidableEq, Repr

/-- Embedding of `NUMBER_OF_RUNS` from `scripts/benchmark-single-tool.ts`. -/
def NUMBER_OF_RUNS : ℕ := 10

/-- Embedding of `NUMBER_OF_PREP_RUNS` from `scripts/benchmark-single-tool.ts`. -/
def NUMBER_OF_PREP_RUNS : ℕ := 2

/-! ## Retry policy (`runCommandWithRetry`, benchmark-single-tool.ts lines 113-137)

The spawn primitive is abstracted as an oracle `spawn : List String → SpawnResult`
mapping the argument list of an invocation to its outcome.  Alongside the final
`SpawnResult` the embedding returns the trace of argument lists passed to the
spawn primitive, in order, so that the number of underlying process invocations
is observable. -/

/-- The `for (let trial = 1; trial <= maxTrials; trial++)` loop of
`runCommandWithRetry`.  Each iteration: return `result` if its status is `0`;
if `trial < maxTrials` do nothing (`continue`); if `trial === maxTrials`
re-invoke once with the fallback arguments appended and keep that result. -/
def runCommandWithRetryLoop (spawn : List String → SpawnResult)
    (args fallbackArgs : List String) (maxTrials trial : ℕ)
    (result : SpawnResult) (trace : List (List String)) :
    SpawnResult × List (List String) :=
  if _h : trial ≤ maxTrials then
    if result.status = some 0 then
      (result, trace)
    else if trial < maxTrials then
      runCommandWithRetryLoop spawn args fallbackArgs maxTrials (trial + 1) result trace
    else
      let result2 := spawn (args ++ fallbackArgs)
      runCommandWithRetryLoop spawn args fallbackArgs maxTrials (trial + 1) result2
        (trace ++ [args ++ fallbackArgs])
  else
    (result, trace)
termination_by maxTrials + 1 - trial
decreasing_by
  all_goals omega

/-- Embedding of `runCommandWithRetry(cmd, args, fallbackArgs, maxTrials)`: one initial
spawn with the original arguments, then the trial loop. -/
def runCommandWithRetry (spawn : List String → SpawnResult)
    (args fallbackArgs : List String) (maxTrials : ℕ) :
    SpawnResult × List (List String) :=
  let result := spawn args
  runCommandWithRetryLoop spawn args fallbackArgs maxTrials 1 result [args]

/-! ## Concurrency advisors (`getOptimalConcurrency`)

The environment override `BENCHMARK_CONCURRENCY` is modelled as
`Option (Option ℤ)`: `none` means the variable is unset (or the empty string,
which is falsy); `some none` means it is set but `parseInt` yields `NaN`;
`some (some v)` means it parses to the integer `v`.  `Math.floor(cpuCount * 0.5)`
for a natural `cpuCount` is integer division by two. -/

/-- Embedding of `getOptimalConcurrency` from `scripts/benchmark-json.ts` (lines 39-62).
Returns the `(prep, benchmark)` pair. -/
def getOptimalConcurrencyJson (cpuCount : ℕ) (isCI : Bool)
    (override : Option (Option ℤ)) : ℤ × ℤ :=
  let heuristic : ℤ × ℤ :=
    if isCI then
      (max 1 ((cpuCount : ℤ) / 2 - 1), max 1 ((cpuCount : ℤ) - 1))
    else
      (max 1 ((cpuCount : ℤ) / 2 - 1), max 1 ((cpuCount : ℤ) / 2 - 1))
  match override with
  | some (some overrideValue) =>
      if 0 < overrideValue then (overrideValue, overrideValue) else heuristic
  | _ => heuristic

/-- Embedding of `getOptimalConcurrency` from `scripts/benchmark-single-tool.ts`
(lines 49-70).  Note that its local branch differs from the benchmark-json
variant: prep is `max(1, floor(cpuCount*0.5))` (no `- 1`) and benchmark is
`max(1, cpuCount - 1)`. -/
def getOptimalConcurrencySingleTool (cpuCount : ℕ) (isCI : Bool)
    (override : Option (Option ℤ)) : ℤ × ℤ :=
  let heuristic : ℤ × ℤ :=
    if isCI then
      (max 1 ((cpuCount : ℤ) / 2 - 1), max 1 ((cpuCount : ℤ) - 1))
    else
      (max 1 ((cpuCount : ℤ) / 2), max 1 ((cpuCount : ℤ) - 1))
  match override with
  | some (some overrideValue) =>
      if 0 < overrideValue then (overrideValue, overrideValue) else heuristic
  | _ => heuristic

/-! ## Per-tool benchmark measurement phase
(`runToolBenchmark` / `runLernaBenchmark`, benchmark-single-tool.ts)

One measured invocation is modelled by the pair of its wall-clock duration in
milliseconds and its `SpawnResult`; the oracle `invocations` gives the pair for
the `i`-th run.  The prep phase only logs and discards its timings, so it does
not appear in the embedding of the returned `ToolResults`. -/

/-- Embedding of `Math.min(...runs)` as used by `calculateStats`: the binary minimum folded
over the elements.  On the empty spread JavaScript yields `Infinity`, which is
unreachable here because the benchmark loop always produces `NUMBER_OF_RUNS`
elements; the empty case is modelled as `0`. -/
def listMin : List ℚ → ℚ
  | [] => 0
  | x :: xs => xs.foldl min x

/-- Embedding of `Math.max(...runs)` as used by `calculateStats`; empty case as in `listMin`. -/
def listMax : List ℚ → ℚ
  | [] => 0
  | x :: xs => xs.foldl max x

/-- Embedding of `calculateStats(runs)` (benchmark-single-tool.ts lines 106-111): the
`{ min, max }` pair. -/
def calculateStats (runs : List ℚ) : ℚ × ℚ :=
  (listMin runs, listMax runs)

/-- The measurement loop (`for (let i = 0; i < NUMBER_OF_RUNS; ++i)`),
benchmark-single-tool.ts lines 262-281: every iteration spawns once, then adds
the observed duration to `totalTime` and pushes it onto `runs`, with no test of
the invocation's exit status on that path (the status only selects a log
message).  Returns `(totalTime, runs)`. -/
def measurePhase (invocations : ℕ → ℚ × SpawnResult) (numberOfRuns : ℕ) :
    ℚ × List ℚ :=
  (List.range numberOfRuns).foldl
    (fun acc i =>
      let duration := (invocations i).1
      (acc.1 + duration, acc.2 ++ [duration]))
    (0, [])

/-- Embedding of `runToolBenchmark` (benchmark-single-tool.ts lines 220-294), restricted to
the quantities that flow into the returned `ToolResults`:
`average = totalTime / NUMBER_OF_RUNS`, `total`, `runs`, and the
`calculateStats` min/max.  `runLernaBenchmark` (lines 139-218) computes the
same statistics from its own identical loop. -/
def runToolBenchmark (invocations : ℕ → ℚ × SpawnResult) : ToolResults :=
  let phase := measurePhase invocations NUMBER_OF_RUNS
  let totalTime := phase.1
  let runs := phase.2
  let average := totalTime / (NUMBER_OF_RUNS : ℚ)
  let stats := calculateStats runs
  { average := average, total := totalTime, runs := runs,
    min := stats.1, max := stats.2 }

/-! ## Result aggregation (`combineResults`, combine-results script)

The five artifact files are modelled by
`input : ToolName → Option SingleToolResult`: `some` when
`benchmark-results-<tool>.json` exists and parses, `none` when it is missing or
unreadable (the script logs and skips either case).  The initial
`new Date().toISOString()` / `toLocaleDateString()` values are parameters. -/

/-- Embedding of `createEmptyResults()` from the combine-results script. -/
def createEmptyResults : ToolResults :=
  { average := 0, total := 0, runs := [], min := 0, max := 0 }

/-- The fixed iteration order of the `tools` array in `combineResults`
(also the key order of `BenchmarkResults['tools']`). -/
def toolNames : List ToolName :=
  [ToolName.nx, ToolName.turbo, ToolName.lerna, ToolName.lage, ToolName.moon]

/-- The printable name of a tool. -/
def ToolName.str : ToolName → String
  | .nx => "nx"
  | .turbo => "turbo"
  | .lerna => "lerna"
  | .lage => "lage"
  | .moon => "moon"

/-- A comparison key:
`` `${fastest.name}Vs${toolName.charAt(0).toUpperCase() + toolName.slice(1)}` ``. -/
def comparisonKey (fastest other : ToolName) : String :=
  fastest.str ++ "Vs" ++ other.str.capitalize

/-- Mutable state of the artifact-reading loop in `combineResults`. -/
structure CombineState where
  results : BenchmarkResults
  foundResults : ℕ
  latestTimestamp : String

/-- One iteration of the artifact-reading loop (combine-results script lines
63-93): when the file for `tool` is present and parses, copy its `results` into
the tool slot, overwrite the top-level `runs` count, adopt the timestamp/date
when strictly later than the latest seen so far, and count the artifact as
found.  JavaScript's `>` on strings is lexicographic comparison of the
character sequences, modelled as the lexicographic order on `String.data`. -/
def combineStep (input : ToolName → Option SingleToolResult)
    (st : CombineState) (tool : ToolName) : CombineState :=
  match input tool with
  | none => st
  | some toolResult =>
    let results1 : BenchmarkResults :=
      { st.results with
          tools := fun t => if t = tool then toolResult.results else st.results.tools t,
          runs := toolResult.runs }
    if st.latestTimestamp = "" ∨ st.latestTimestamp.data < toolResult.timestamp.data then
      { results := { results1 with
            timestamp := toolResult.timestamp, date := toolResult.date },
        foundResults := st.foundResults + 1,
        latestTimestamp := toolResult.timestamp }
    else
      { results := results1,
        foundResults := st.foundResults + 1,
        latestTimestamp := st.latestTimestamp }

/-- The initial aggregate of `combineResults` (combine-results script lines
45-60): default timestamps, the default run count 10, all-zero tool slots,
empty comparisons, and no artifacts found yet. -/
def initialCombineState (initTimestamp initDate : String) : CombineState :=
  { results :=
      { timestamp := initTimestamp, date := initDate, runs := 10,
        tools := fun _ => createEmptyResults, comparisons := [] },
    foundResults := 0, latestTimestamp := "" }

/-- Embedding of `combineResults()` (combine-results script lines 37-166).  Throwing
`new Error('No benchmark results found to combine')` is modelled by
`Except.error` carrying the message.  The ranking log output does not affect
the returned structure and is omitted. -/
def combineResults (initTimestamp initDate : String)
    (input : ToolName → Option SingleToolResult) :
    Except String BenchmarkResults :=
  let st := toolNames.foldl (combineStep input) (initialCombineState initTimestamp initDate)
  if st.foundResults = 0 then
    Except.error "No benchmark results found to combine"
  else
    let results := st.results
    let toolStats := toolNames.filter fun name => 0 < (results.tools name).average
    if 1 < toolStats.length then
      match toolStats with
      | [] => Except.ok results -- unreachable: the length test guarantees ≥ 2 entries
      | f :: rest =>
        let fastest := rest.foldl
          (fun fastest current =>
            if (results.tools current).average < (results.tools fastest).average then
              current
            else
              fastest) f
        let comparisons := toolNames.filterMap fun toolName =>
          if toolName ≠ fastest ∧ 0 < (results.tools toolName).average then
            some (comparisonKey fastest toolName,
              (results.tools toolName).average / (results.tools fastest).average)
          else
            none
        Except.ok { results with comparisons := comparisons }
    else
      Except.ok results

/-! ## Change analysis (compare-and-update-readme.ts)

`previous` comes from `JSON.parse(process.env.PREVIOUS_RESULTS || '{}')` and
may be arbitrarily partial.  `Option PreviousBenchmarkResults` collapses the
`!previous || !previous.tools` test; inside it, each tool's average
(`previous.tools[tool]?.average`) and the `comparisons` record may each be
independently absent.  `current` is only analysed after the orchestrator has
checked `current.tools` exists, and its tool entries are accessed without
optional chaining, so it is a full `BenchmarkResults`. -/

/-- Embedding of `PERFORMANCE_THRESHOLD` (0.1). -/
def PERFORMANCE_THRESHOLD : ℚ := 1 / 10

/-- Embedding of `TOOL_SIGNIFICANCE_THRESHOLD` (0.05). -/
def TOOL_SIGNIFICANCE_THRESHOLD : ℚ := 1 / 20

/-- The shape of possibly-partial previous results as used by
`hasSignificantChanges` and `detectPerformanceRegression`. -/
structure PreviousBenchmarkResults where
  tools : ToolName → Option ℚ
  comparisons : Option (List (String × ℚ))

/-- Embedding of `isSignificantChange(current, previous, threshold)`
(compare-and-update-readme.ts lines 19-27): false when the previous value is
falsy (absence is handled by the callers; `0` and `NaN` collapse to `0` here),
otherwise `|((current - previous) / previous)| > threshold`. -/
def isSignificantChange (current previous threshold : ℚ) : Bool :=
  if previous = 0 then false
  else decide (threshold < |(current - previous) / previous|)

/-- Embedding of `hasSignificantChanges(current, previous)` (lines 153-172): true on a first
run (no previous data), otherwise true iff some tool either has no previous
average or changed significantly against the 5% threshold. -/
def hasSignificantChanges (current : BenchmarkResults)
    (previous : Option PreviousBenchmarkResults) : Bool :=
  match previous with
  | none => true
  | some prev =>
    toolNames.any fun tool =>
      match prev.tools tool with
      | none => true
      | some previousValue =>
        isSignificantChange (current.tools tool).average previousValue
          TOOL_SIGNIFICANCE_THRESHOLD

/-- Embedding of `detectPerformanceRegression(current, previous)` (lines 108-141): the nx
baseline check plus the comparison-ratio check.  `!previous.comparisons[key]`
skips keys that are missing and also values equal to `0`. -/
def detectPerformanceRegression (current : BenchmarkResults)
    (previous : Option PreviousBenchmarkResults) : Bool :=
  match previous with
  | none => false
  | some prev =>
    let nxRegression : Bool :=
      match prev.tools ToolName.nx with
      | none => false
      | some previousNxAverage =>
        isSignificantChange (current.tools ToolName.nx).average previousNxAverage
            PERFORMANCE_THRESHOLD
          && decide (previousNxAverage < (current.tools ToolName.nx).average)
    let ratioRegression : Bool :=
      current.comparisons.any fun kv =>
        match prev.comparisons with
        | none => false
        | some prevComparisons =>
          match prevComparisons.lookup kv.1 with
          | none => false
          | some prevRatio =>
            if prevRatio = 0 then false
            else
              isSignificantChange kv.2 prevRatio PERFORMANCE_THRESHOLD
                && decide (kv.2 < prevRatio)
    nxRegression || ratioRegression

/-! ## Concrete fixtures

Inputs used to instantiate the theorems below on concrete data.  They are test
vectors, not part of the embedding. -/

/-- A spawn oracle whose invocations all fail with exit status 1. -/
def alwaysFailSpawn : List String → SpawnResult :=
  fun _ => { status := some 1, signal := none, stdout := "", stderr := "" }

/-- A `ToolResults` fixture with a given average. -/
def fixtureToolResults (a : ℚ) : ToolResults :=
  { average := a, total := a, runs := [a], min := a, max := a }

/-- An aggregated-results fixture whose five tools all have average 300. -/
def currentFixture : BenchmarkResults :=
  { timestamp := "2024-01-02T00:00:00.000Z", date := "1/2/2024", runs := 10,
    tools := fun _ => fixtureToolResults 300, comparisons := [] }

/-- A previous-results fixture whose five tools all have average 250. -/
def previousFixture : PreviousBenchmarkResults :=
  { tools := fun _ => some 250, comparisons := none }

/-- Artifact fixture: results present for nx (average 2) and turbo (average 4). -/
def combineInputFixture : ToolName → Option SingleToolResult := fun t =>
  match t with
  | .nx => some { tool := .nx, timestamp := "2024-01-02T00:00:00.000Z",
                  date := "1/2/2024", runs := 10, results := fixtureToolResults 2 }
  | .turbo => some { tool := .turbo, timestamp := "2024-01-01T00:00:00.000Z",
                     date := "1/1/2024", runs := 10, results := fixtureToolResults 4 }
  | _ => none

/-- Artifact fixture: a result present only for nx. -/
def combineSingleInputFixture : ToolName → Option SingleToolResult := fun t =>
  match t with
  | .nx => some { tool := .nx, timestamp := "2024-01-01T00:00:00.000Z",
                  date := "1/1/2024", runs := 7, results := fixtureToolResults 100 }
  | _ => none

/-- An all-empty aggregated value, used only as an unreachable fallback when
projecting an `Except.ok`. -/
def emptyBenchmarkResults : BenchmarkResults :=
  { timestamp := "", date := "", runs := 0,
    tools := fun _ => createEmptyResults, comparisons := [] }

/-- The aggregated value produced by `combineResults` on `combineInputFixture`. -/
def combinedFixture : BenchmarkResults :=
  (combineResults "2024-01-01T00:00:00.000Z" "1/1/2024" combineInputFixture).toOption.getD
    emptyBenchmarkResults

/-- Measured-invocation fixture: run `i` takes `i` milliseconds and succeeds. -/
def invocationsFixture : ℕ → ℚ × SpawnResult :=
  fun i => ((i : ℚ), { status := some 0, signal := none, stdout := "", stderr := "" })

/-- Measured-invocation fixture: every run takes 5 ms and fails with status 1. -/
def failingInvocationsFixture : ℕ → ℚ × SpawnResult :=
  fun _ => ((5 : ℚ), { status := some 1, signal := none, stdout := "", stderr := "err" })

/-! ## Helper lemmas -/

/-- Every tool occurs in the fixed iteration list. -/
theorem ToolName.mem_toolNames (t : ToolName) : t ∈ toolNames := by
  cases t <;> simp [toolNames]

/-- Unfolding of the retry loop under a spawn oracle that never succeeds and
`maxTrials = 3`: the three trials inspect the same failed initial result, and
only the third performs a (single) new invocation, with the fallback arguments
appended. -/
theorem runCommandWithRetryLoop_allFail_three (spawn : List String → SpawnResult)
    (args fallbackArgs : List String) (result : SpawnResult)
    (trace : List (List String)) (hFail : ¬ result.status = some 0) :
    runCommandWithRetryLoop spawn args fallbackArgs 3 1 result trace =
      (spawn (args ++ fallbackArgs), trace ++ [args ++ fallbackArgs]) := by
  rw [runCommandWithRetryLoop]
  simp only [hFail]
  norm_num
  rw [runCommandWithRetryLoop]
  simp only [hFail]
  norm_num
  rw [runCommandWithRetryLoop]
  simp only [hFail]
  norm_num
  rw [runCommandWithRetryLoop]
  norm_num

/-! ## C1 — retry policy invocation count -/

/-- C1 counterexample: with a command that fails on every attempt,
`maxTrials = 3` and fallback arguments `["x"]`, `runCommandWithRetry` performs
exactly 2 underlying process invocations — not 3 as claimed: the trace of
argument lists handed to the spawn primitive is `[["a"], ["a", "x"]]`. -/
theorem c1_counterexample :
    (runCommandWithRetry alwaysFailSpawn ["a"] ["x"] 3).2 = [["a"], ["a", "x"]] ∧
    (runCommandWithRetry alwaysFailSpawn ["a"] ["x"] 3).2.length ≠ 3 := by
  have h := runCommandWithRetryLoop_allFail_three alwaysFailSpawn ["a"] ["x"]
    (alwaysFailSpawn ["a"]) [["a"]] (by simp [alwaysFailSpawn])
  unfold runCommandWithRetry
  rw [h]
  constructor
  · rfl
  · decide

/-- C1 (amended): for every command that fails with a non-zero exit status on
every attempt, `runCommandWithRetry` with `maxTrials = 3` performs exactly 2
underlying process invocations: the first with the original arguments and the
second (and last) with the fallback arguments appended to the original
arguments; the intermediate trials re-inspect the first result without
re-invoking, and the returned result is the result of that last invocation
regardless of its outcome. -/
theorem c1_retry_two_invocations (spawn : List String → SpawnResult)
    (args fallbackArgs : List String)
    (hFail : ∀ a, ¬ (spawn a).status = some 0) :
    runCommandWithRetry spawn args fallbackArgs 3 =
      (spawn (args ++ fallbackArgs), [args, args ++ fallbackArgs]) := by
  unfold runCommandWithRetry
  rw [runCommandWithRetryLoop_allFail_three spawn args fallbackArgs (spawn args) [args]
    (hFail args)]
  rfl

/-- C1 witness: the amended statement, instantiated at the always-failing
spawn oracle. -/
theorem c1_retry_two_invocations_witness :
    runCommandWithRetry alwaysFailSpawn ["a"] ["x"] 3 =
      (alwaysFailSpawn (["a"] ++ ["x"]), [["a"], ["a"] ++ ["x"]]) :=
  c1_retry_two_invocations alwaysFailSpawn ["a"] ["x"]
    (fun a => by simp [alwaysFailSpawn])

/-! ## C4 — local-mode concurrency recommendation -/

/-- C4 counterexample: on an 8-CPU host in local mode with no override, the
`benchmark-single-tool.ts` concurrency recommendation returns `(4, 7)`, not the
claimed `(max 1 (8/2 - 1), max 1 (8/2 - 1)) = (3, 3)`, so prep and measurement
recommendations are neither as claimed nor equal. -/
theorem c4_counterexample :
    getOptimalConcurrencySingleTool 8 false none = (4, 7) ∧
    getOptimalConcurrencySingleTool 8 false none ≠
      (max 1 ((8 : ℤ) / 2 - 1), max 1 ((8 : ℤ) / 2 - 1)) := by
  decide

/-- C4 (amended): in local mode (CI flag false, no positive override), the
`benchmark-json.ts` recommendation returns
`prep = measure = max(1, floor(cpuCount*0.5) - 1)`, so its prep and measurement
recommendations are equal; the `benchmark-single-tool.ts` recommendation
instead returns `prep = max(1, floor(cpuCount*0.5))` and
`measure = max(1, cpuCount - 1)`. -/
theorem c4_local_concurrency (cpuCount : ℕ) (override : Option (Option ℤ))
    (hNoPositive : ∀ v : ℤ, override = some (some v) → v ≤ 0) :
    getOptimalConcurrencyJson cpuCount false override =
      (max 1 ((cpuCount : ℤ) / 2 - 1), max 1 ((cpuCount : ℤ) / 2 - 1)) ∧
    getOptimalConcurrencySingleTool cpuCount false override =
      (max 1 ((cpuCount : ℤ) / 2), max 1 ((cpuCount : ℤ) - 1)) := by
  unfold getOptimalConcurrencyJson getOptimalConcurrencySingleTool
  match override with
  | none => exact ⟨rfl, rfl⟩
  | some none => exact ⟨rfl, rfl⟩
  | some (some v) =>
    have hv : ¬ (0 < v) := by
      have := hNoPositive v rfl
      omega
    simp [hv]

/-- C4 witness: the amended statement at `cpuCount = 8`, no override. -/
theorem c4_local_concurrency_witness :
    getOptimalConcurrencyJson 8 false none = (3, 3) ∧
    getOptimalConcurrencySingleTool 8 false none = (4, 7) := by
  have h := c4_local_concurrency 8 none (fun v hv => by cases hv)
  exact ⟨by rw [h.1]; decide, by rw [h.2]; decide⟩

/-! ## C9 — concurrency recommendations floor at 1 -/

/-- C9: for every combination of CPU count, CI flag and override (positive,
non-positive, non-numeric or absent), both fields of both concurrency
recommendations are at least 1 — including `cpuCount = 1` (and `0`). -/
theorem c9_concurrency_at_least_one (cpuCount : ℕ) (isCI : Bool)
    (override : Option (Option ℤ)) :
    1 ≤ (getOptimalConcurrencyJson cpuCount isCI override).1 ∧
    1 ≤ (getOptimalConcurrencyJson cpuCount isCI override).2 ∧
    1 ≤ (getOptimalConcurrencySingleTool cpuCount isCI override).1 ∧
    1 ≤ (getOptimalConcurrencySingleTool cpuCount isCI override).2 := by
  unfold getOptimalConcurrencyJson getOptimalConcurrencySingleTool
  match override with
  | none => cases isCI <;> exact ⟨le_max_left .., le_max_left .., le_max_left .., le_max_left ..⟩
  | some none => cases isCI <;> exact ⟨le_max_left .., le_max_left .., le_max_left .., le_max_left ..⟩
  | some (some v) =>
    by_cases hv : 0 < v
    · simp only [hv, if_pos]
      exact ⟨hv, hv, hv, hv⟩
    · simp only [hv, if_neg, if_false]
      cases isCI <;> exact ⟨le_max_left .., le_max_left .., le_max_left .., le_max_left ..⟩

/-! ## Helper lemmas for the measurement phase -/

/-- The measurement fold appends the duration of each processed run and adds it
to the running total. -/
theorem measurePhase_foldl (invocations : ℕ → ℚ × SpawnResult) (l : List ℕ)
    (acc : ℚ × List ℚ) :
    l.foldl
      (fun acc i =>
        let duration := (invocations i).1
        (acc.1 + duration, acc.2 ++ [duration])) acc =
      (acc.1 + (l.map fun i => (invocations i).1).sum,
        acc.2 ++ l.map fun i => (invocations i).1) := by
  induction l generalizing acc with
  | nil => simp
  | cons x xs ih => simp [ih, add_assoc]

/-- Closed form of `measurePhase`: the run list is the list of observed
durations in run order, and the total is their sum. -/
theorem measurePhase_eq (invocations : ℕ → ℚ × SpawnResult) (n : ℕ) :
    measurePhase invocations n =
      (((List.range n).map fun i => (invocations i).1).sum,
        (List.range n).map fun i => (invocations i).1) := by
  unfold measurePhase
  rw [measurePhase_foldl]
  simp

/-- A fold of binary `min` is bounded by its initial value. -/
theorem foldl_min_le_init (xs : List ℚ) : ∀ a : ℚ, xs.foldl min a ≤ a := by
  induction xs with
  | nil => intro a; simp
  | cons x xs ih => intro a; exact le_trans (ih (min a x)) (min_le_left a x)

/-- A fold of binary `min` is bounded by every element of the list. -/
theorem foldl_min_le_mem (xs : List ℚ) : ∀ (a x : ℚ), x ∈ xs → xs.foldl min a ≤ x := by
  induction xs with
  | nil => intro a x hx; cases hx
  | cons y ys ih =>
    intro a x hx
    rcases List.mem_cons.mp hx with h | h
    · subst h
      exact le_trans (foldl_min_le_init ys (min a x)) (min_le_right a x)
    · exact ih (min a y) x h

/-- A fold of binary `min` yields the initial value or an element of the list. -/
theorem foldl_min_mem (xs : List ℚ) : ∀ a : ℚ, xs.foldl min a = a ∨ xs.foldl min a ∈ xs := by
  induction xs with
  | nil => intro a; left; rfl
  | cons y ys ih =>
    intro a
    rw [List.foldl_cons]
    rcases ih (min a y) with h | h
    · rcases min_choice a y with hm | hm
      · left; rw [h, hm]
      · right; rw [h, hm]; exact List.mem_cons_self y ys
    · right; exact List.mem_cons_of_mem y h

/-- A fold of binary `max` is bounded below by its initial value. -/
theorem foldl_max_le_init (xs : List ℚ) : ∀ a : ℚ, a ≤ xs.foldl max a := by
  induction xs with
  | nil => intro a; simp
  | cons x xs ih => intro a; exact le_trans (le_max_left a x) (ih (max a x))

/-- A fold of binary `max` dominates every element of the list. -/
theorem foldl_max_le_mem (xs : List ℚ) : ∀ (a x : ℚ), x ∈ xs → x ≤ xs.foldl max a := by
  induction xs with
  | nil => intro a x hx; cases hx
  | cons y ys ih =>
    intro a x hx
    rcases List.mem_cons.mp hx with h | h
    · subst h
      exact le_trans (le_max_right a x) (foldl_max_le_init ys (max a x))
    · exact ih (max a y) x h

/-- A fold of binary `max` yields the initial value or an element of the list. -/
theorem foldl_max_mem (xs : List ℚ) : ∀ a : ℚ, xs.foldl max a = a ∨ xs.foldl max a ∈ xs := by
  induction xs with
  | nil => intro a; left; rfl
  | cons y ys ih =>
    intro a
    rw [List.foldl_cons]
    rcases ih (max a y) with h | h
    · rcases max_choice a y with hm | hm
      · left; rw [h, hm]
      · right; rw [h, hm]; exact List.mem_cons_self y ys
    · right; exact List.mem_cons_of_mem y h

/-- The value `listMin` of a nonempty list is an element of it. -/
theorem listMin_mem (l : List ℚ) (h : l ≠ []) : listMin l ∈ l := by
  match l with
  | [] => exact absurd rfl h
  | x :: xs =>
    rcases foldl_min_mem xs x with h' | h'
    · rw [listMin, h']; exact List.mem_cons_self x xs
    · exact List.mem_cons_of_mem x h'

/-- The value `listMin` of a list bounds every element. -/
theorem listMin_le (l : List ℚ) (x : ℚ) (hx : x ∈ l) : listMin l ≤ x := by
  match l with
  | [] => cases hx
  | y :: ys =>
    rcases List.mem_cons.mp hx with h | h
    · subst h; exact foldl_min_le_init ys x
    · exact foldl_min_le_mem ys y x h

/-- The value `listMax` of a nonempty list is an element of it. -/
theorem listMax_mem (l : List ℚ) (h : l ≠ []) : listMax l ∈ l := by
  match l with
  | [] => exact absurd rfl h
  | x :: xs =>
    rcases foldl_max_mem xs x with h' | h'
    · rw [listMax, h']; exact List.mem_cons_self x xs
    · exact List.mem_cons_of_mem x h'

/-- The value `listMax` of a list dominates every element. -/
theorem listMax_le (l : List ℚ) (x : ℚ) (hx : x ∈ l) : x ≤ listMax l := by
  match l with
  | [] => cases hx
  | y :: ys =>
    rcases List.mem_cons.mp hx with h | h
    · subst h; exact foldl_max_le_init ys x
    · exact foldl_max_le_mem ys y x h

/-! ## C7 — statistics invariants of a benchmark run -/

/-- C7: for every benchmark run, the produced `ToolResults` has a nonempty
`runs` sequence with `average = total / len(runs)`, `total = sum(runs)`,
`min = minimum(runs)` and `max = maximum(runs)` (the minimum/maximum being an
element of `runs` bounding all elements). -/
theorem c7_stats_invariants (invocations : ℕ → ℚ × SpawnResult) :
    (runToolBenchmark invocations).runs ≠ [] ∧
    (runToolBenchmark invocations).average =
      (runToolBenchmark invocations).total /
        ((runToolBenchmark invocations).runs.length : ℚ) ∧
    (runToolBenchmark invocations).total = (runToolBenchmark invocations).runs.sum ∧
    (runToolBenchmark invocations).min ∈ (runToolBenchmark invocations).runs ∧
    (∀ x ∈ (runToolBenchmark invocations).runs, (runToolBenchmark invocations).min ≤ x) ∧
    (runToolBenchmark invocations).max ∈ (runToolBenchmark invocations).runs ∧
    (∀ x ∈ (runToolBenchmark invocations).runs, x ≤ (runToolBenchmark invocations).max) := by
  have hrb : runToolBenchmark invocations =
      { average := (((List.range NUMBER_OF_RUNS).map fun i => (invocations i).1).sum) /
          (NUMBER_OF_RUNS : ℚ),
        total := ((List.range NUMBER_OF_RUNS).map fun i => (invocations i).1).sum,
        runs := (List.range NUMBER_OF_RUNS).map fun i => (invocations i).1,
        min := listMin ((List.range NUMBER_OF_RUNS).map fun i => (invocations i).1),
        max := listMax ((List.range NUMBER_OF_RUNS).map fun i => (invocations i).1) } := by
    unfold runToolBenchmark calculateStats
    rw [measurePhase_eq]
  rw [hrb]
  set rs : List ℚ := (List.range NUMBER_OF_RUNS).map fun i => (invocations i).1 with hrs
  have hlen : rs.length = NUMBER_OF_RUNS := by
    rw [hrs, List.length_map, List.length_range]
  have hne : rs ≠ [] := by
    intro h
    rw [h] at hlen
    exact absurd hlen.symm (by decide)
  refine ⟨hne, ?_, rfl, listMin_mem rs hne, fun x hx => listMin_le rs x hx,
    listMax_mem rs hne, fun x hx => listMax_le rs x hx⟩
  rw [hlen]

/-- C7 witness: on the fixture where run `i` lasts `i` ms, the minimum is below
the first run's duration and the run list is nonempty. -/
theorem c7_stats_invariants_witness :
    (runToolBenchmark invocationsFixture).runs ≠ [] ∧
    (runToolBenchmark invocationsFixture).min ≤ 0 := by
  have h := c7_stats_invariants invocationsFixture
  exact ⟨h.1, h.2.2.2.2.1 0 (by decide)⟩

/-! ## C8 — one recorded duration per measured invocation -/

/-- C8: the measurement phase performs `NUMBER_OF_RUNS = 10` sequential
invocations and appends exactly one wall-clock duration per invocation
regardless of its exit status: afterwards `len(runs) = NUMBER_OF_RUNS`, the
`i`-th entry is the `i`-th invocation's duration (failed runs included), and
every recorded duration contributes to `total`. -/
theorem c8_duration_per_run (invocations : ℕ → ℚ × SpawnResult) :
    (runToolBenchmark invocations).runs.length = NUMBER_OF_RUNS ∧
    NUMBER_OF_RUNS = 10 ∧
    (∀ i, i < NUMBER_OF_RUNS →
      (runToolBenchmark invocations).runs[i]? = some (invocations i).1) ∧
    (runToolBenchmark invocations).total = (runToolBenchmark invocations).runs.sum := by
  have hruns : (runToolBenchmark invocations).runs =
      (List.range NUMBER_OF_RUNS).map fun i => (invocations i).1 := by
    unfold runToolBenchmark
    rw [measurePhase_eq]
  have htotal : (runToolBenchmark invocations).total =
      ((List.range NUMBER_OF_RUNS).map fun i => (invocations i).1).sum := by
    unfold runToolBenchmark
    rw [measurePhase_eq]
  refine ⟨?_, rfl, ?_, ?_⟩
  · rw [hruns, List.length_map, List.length_range]
  · intro i hi
    rw [hruns, List.getElem?_map, List.getElem?_range hi]
    rfl
  · rw [htotal, hruns]

/-- C8 witness: on the fixture where every invocation fails with status 1 and
takes 5 ms, the failed first run's duration is still recorded. -/
theorem c8_duration_per_run_witness :
    (runToolBenchmark failingInvocationsFixture).runs[0]? = some 5 ∧
    (runToolBenchmark failingInvocationsFixture).runs.length = 10 := by
  have h := c8_duration_per_run failingInvocationsFixture
  exact ⟨h.2.2.1 0 (by decide), h.1⟩

/-! ## Helper lemmas for the change analyzer -/

/-- For a nonnegative previous value, the code's upward-change test
(absolute relative change above the threshold, and strictly increased) is
the claim's "increased by strictly more than the threshold". -/
theorem relative_increase_iff (c p t : ℚ) (hp : 0 ≤ p) (ht : 0 < t) :
    (¬ p = 0 ∧ t < |(c - p) / p| ∧ p < c) ↔ (0 < p ∧ t < (c - p) / p) := by
  constructor
  · rintro ⟨hne, habs, hlt⟩
    have hppos : 0 < p := lt_of_le_of_ne hp (Ne.symm hne)
    have hpos : 0 < (c - p) / p := div_pos (by linarith) hppos
    rw [abs_of_pos hpos] at habs
    exact ⟨hppos, habs⟩
  · rintro ⟨hppos, hgt⟩
    have hpos : 0 < (c - p) / p := lt_trans ht hgt
    have hlt : p < c := by
      rcases div_pos_iff.mp hpos with ⟨h1, _⟩ | ⟨_, h2⟩
      · linarith
      · linarith
    exact ⟨ne_of_gt hppos, by rw [abs_of_pos hpos]; exact hgt, hlt⟩

/-- For a nonnegative previous value, the code's downward-change test
(absolute relative change above the threshold, and strictly decreased) is
the claim's "lower by strictly more than the threshold". -/
theorem relative_decrease_iff (c q t : ℚ) (hq : 0 ≤ q) (ht : 0 < t) :
    (¬ q = 0 ∧ t < |(c - q) / q| ∧ c < q) ↔ (0 < q ∧ t < (q - c) / q) := by
  constructor
  · rintro ⟨hne, habs, hlt⟩
    have hqpos : 0 < q := lt_of_le_of_ne hq (Ne.symm hne)
    have hneg : (c - q) / q < 0 := div_neg_of_neg_of_pos (by linarith) hqpos
    rw [abs_of_neg hneg] at habs
    have : -((c - q) / q) = (q - c) / q := by ring
    rw [this] at habs
    exact ⟨hqpos, habs⟩
  · rintro ⟨hqpos, hgt⟩
    have hpos : 0 < (q - c) / q := lt_trans ht hgt
    have hlt : c < q := by
      rcases div_pos_iff.mp hpos with ⟨h1, _⟩ | ⟨_, h2⟩
      · linarith
      · linarith
    have hneg : (c - q) / q < 0 := div_neg_of_neg_of_pos (by linarith) hqpos
    refine ⟨ne_of_gt hqpos, ?_, hlt⟩
    rw [abs_of_neg hneg]
    have : -((c - q) / q) = (q - c) / q := by ring
    rw [this]
    exact hgt

/-! ## C2 — significance analysis -/

/-- C2: `hasSignificantChanges` returns true when previous data is absent (or
lacks a tools map); returns true when some tool has no previous average; and
otherwise (all five previous averages present, and nonnegative as durations
are) returns true iff some tool's `|current.average - previous.average| /
previous.average` strictly exceeds the 5% threshold — a tool whose previous
average is 0 never contributes a significant change. -/
theorem c2_significant_changes (current : BenchmarkResults)
    (prev : PreviousBenchmarkResults)
    (hNonneg : ∀ t p, prev.tools t = some p → 0 ≤ p) :
    hasSignificantChanges current none = true ∧
    ((∃ t, prev.tools t = none) → hasSignificantChanges current (some prev) = true) ∧
    ((∀ t, prev.tools t ≠ none) →
      (hasSignificantChanges current (some prev) = true ↔
        ∃ t p, prev.tools t = some p ∧ p ≠ 0 ∧
          TOOL_SIGNIFICANCE_THRESHOLD < |(current.tools t).average - p| / p)) := by
  refine ⟨rfl, ?_, ?_⟩
  · rintro ⟨t, ht⟩
    unfold hasSignificantChanges
    rw [List.any_eq_true]
    exact ⟨t, ToolName.mem_toolNames t, by rw [ht]⟩
  · intro hall
    unfold hasSignificantChanges
    rw [List.any_eq_true]
    constructor
    · rintro ⟨t, -, hpred⟩
      rcases Option.ne_none_iff_exists'.mp (hall t) with ⟨p, hp⟩
      rw [hp] at hpred
      simp only [isSignificantChange] at hpred
      by_cases hz : p = 0
      · rw [if_pos hz] at hpred
        cases hpred
      · rw [if_neg hz, decide_eq_true_eq] at hpred
        have hple : 0 ≤ p := hNonneg t p hp
        have hppos : 0 < p := lt_of_le_of_ne hple (Ne.symm hz)
        refine ⟨t, p, hp, hz, ?_⟩
        rw [abs_div, abs_of_pos hppos] at hpred
        exact hpred
    · rintro ⟨t, p, hp, hz, hgt⟩
      refine ⟨t, ToolName.mem_toolNames t, ?_⟩
      rw [hp]
      simp only [isSignificantChange]
      rw [if_neg hz, decide_eq_true_eq]
      have hple : 0 ≤ p := hNonneg t p hp
      have hppos : 0 < p := lt_of_le_of_ne hple (Ne.symm hz)
      rw [abs_div, abs_of_pos hppos]
      exact hgt

/-- C2 witness: all five tools moved from an average of 250 to 300 (a 20%
change), which exceeds the 5% threshold. -/
theorem c2_significant_changes_witness :
    hasSignificantChanges currentFixture (some previousFixture) = true := by
  have h := c2_significant_changes currentFixture previousFixture
    (by intro t p hp; simp only [previousFixture] at hp; rw [← Option.some_inj.mp hp]; norm_num)
  refine (h.2.2 (by intro t; simp [previousFixture])).mpr ?_
  refine ⟨ToolName.nx, 250, rfl, by norm_num, ?_⟩
  simp only [currentFixture, fixtureToolResults, TOOL_SIGNIFICANCE_THRESHOLD]
  norm_num

/-! ## C3 — regression detection -/

/-- C3: `detectPerformanceRegression` returns false when previous data is
absent (or lacks a tools map); otherwise (with previous averages and ratios
nonnegative, as durations and duration ratios are) it returns true iff either
the nx baseline has a defined previous average and its current average
increased by strictly more than 10% relative to it, or some comparison key
present in both datasets has a current ratio strictly more than 10% lower
relative to its previous value; keys missing from the previous comparisons are
skipped. -/
theorem c3_regression_detection (current : BenchmarkResults)
    (prev : PreviousBenchmarkResults)
    (hNx : ∀ p, prev.tools ToolName.nx = some p → 0 ≤ p)
    (hComp : ∀ pc k q, prev.comparisons = some pc → pc.lookup k = some q → 0 ≤ q) :
    detectPerformanceRegression current none = false ∧
    (detectPerformanceRegression current (some prev) = true ↔
      ((∃ p, prev.tools ToolName.nx = some p ∧ 0 < p ∧
          PERFORMANCE_THRESHOLD < ((current.tools ToolName.nx).average - p) / p) ∨
       (∃ kv ∈ current.comparisons, ∃ pc q, prev.comparisons = some pc ∧
          pc.lookup kv.1 = some q ∧ 0 < q ∧
          PERFORMANCE_THRESHOLD < (q - kv.2) / q))) := by
  have htpos : (0 : ℚ) < PERFORMANCE_THRESHOLD := by norm_num [PERFORMANCE_THRESHOLD]
  refine ⟨rfl, ?_⟩
  have hA : (match prev.tools ToolName.nx with
      | none => false
      | some previousNxAverage =>
        isSignificantChange (current.tools ToolName.nx).average previousNxAverage
            PERFORMANCE_THRESHOLD
          && decide (previousNxAverage < (current.tools ToolName.nx).average)) = true ↔
      (∃ p, prev.tools ToolName.nx = some p ∧ 0 < p ∧
        PERFORMANCE_THRESHOLD < ((current.tools ToolName.nx).average - p) / p) := by
    cases hpn : prev.tools ToolName.nx with
    | none => simp
    | some p =>
      rw [Bool.and_eq_true, decide_eq_true_eq]
      simp only [isSignificantChange]
      constructor
      · rintro ⟨hsig, hlt⟩
        by_cases hz : p = 0
        · rw [if_pos hz] at hsig
          cases hsig
        · rw [if_neg hz, decide_eq_true_eq] at hsig
          have h := (relative_increase_iff (current.tools ToolName.nx).average p
            PERFORMANCE_THRESHOLD (hNx p hpn) htpos).mp ⟨hz, hsig, hlt⟩
          exact ⟨p, rfl, h.1, h.2⟩
      · rintro ⟨p', hp', hpos, hgt⟩
        have hpp : p = p' := Option.some_inj.mp hp'
        subst hpp
        have h := (relative_increase_iff (current.tools ToolName.nx).average p
          PERFORMANCE_THRESHOLD (hNx p hpn) htpos).mpr ⟨hpos, hgt⟩
        rw [if_neg h.1, decide_eq_true_eq]
        exact ⟨h.2.1, h.2.2⟩
  have hB : (current.comparisons.any fun kv =>
      match prev.comparisons with
      | none => false
      | some prevComparisons =>
        match prevComparisons.lookup kv.1 with
        | none => false
        | some prevRatio =>
          if prevRatio = 0 then false
          else
            isSignificantChange kv.2 prevRatio PERFORMANCE_THRESHOLD
              && decide (kv.2 < prevRatio)) = true ↔
      (∃ kv ∈ current.comparisons, ∃ pc q, prev.comparisons = some pc ∧
        pc.lookup kv.1 = some q ∧ 0 < q ∧
        PERFORMANCE_THRESHOLD < (q - kv.2) / q) := by
    rw [List.any_eq_true]
    apply exists_congr
    intro kv
    apply and_congr_right
    intro hmem
    cases hpc : prev.comparisons with
    | none => simp
    | some pc =>
      cases hlk : pc.lookup kv.1 with
      | none => simp [hlk]
      | some q =>
        simp only [hlk, Option.some_inj]
        by_cases hz : q = 0
        · rw [if_pos hz]
          constructor
          · rintro h
            cases h
          · rintro ⟨pc', q', hpc', hlk', hpos, -⟩
            subst hpc'
            rw [hlk] at hlk'
            have hqq : q = q' := Option.some_inj.mp hlk'
            subst hqq
            rw [hz] at hpos
            exact absurd hpos (lt_irrefl 0)
        · rw [if_neg hz, Bool.and_eq_true, decide_eq_true_eq]
          simp only [isSignificantChange]
          rw [if_neg hz, decide_eq_true_eq]
          have hq0 : 0 ≤ q := hComp pc kv.1 q hpc hlk
          constructor
          · rintro ⟨hsig, hlt⟩
            have h := (relative_decrease_iff kv.2 q PERFORMANCE_THRESHOLD hq0 htpos).mp
              ⟨hz, hsig, hlt⟩
            exact ⟨pc, q, rfl, hlk, h.1, h.2⟩
          · rintro ⟨pc', q', hpc', hlk', hpos, hgt⟩
            subst hpc'
            rw [hlk] at hlk'
            have hqq : q = q' := Option.some_inj.mp hlk'
            subst hqq
            have h := (relative_decrease_iff kv.2 q PERFORMANCE_THRESHOLD hq0 htpos).mpr
              ⟨hpos, hgt⟩
            exact ⟨h.2.1, h.2.2⟩
  calc detectPerformanceRegression current (some prev) = true
      ↔ ((match prev.tools ToolName.nx with
          | none => false
          | some previousNxAverage =>
            isSignificantChange (current.tools ToolName.nx).average previousNxAverage
                PERFORMANCE_THRESHOLD
              && decide (previousNxAverage < (current.tools ToolName.nx).average)) = true ∨
          (current.comparisons.any fun kv =>
            match prev.comparisons with
            | none => false
            | some prevComparisons =>
              match prevComparisons.lookup kv.1 with
              | none => false
              | some prevRatio =>
                if prevRatio = 0 then false
                else
                  isSignificantChange kv.2 prevRatio PERFORMANCE_THRESHOLD
                    && decide (kv.2 < prevRatio)) = true) := by
        rw [show detectPerformanceRegression current (some prev) =
          ((match prev.tools ToolName.nx with
            | none => false
            | some previousNxAverage =>
              isSignificantChange (current.tools ToolName.nx).average previousNxAverage
                  PERFORMANCE_THRESHOLD
                && decide (previousNxAverage < (current.tools ToolName.nx).average)) ||
            (current.comparisons.any fun kv =>
              match prev.comparisons with
              | none => false
              | some prevComparisons =>
                match prevComparisons.lookup kv.1 with
                | none => false
                | some prevRatio =>
                  if prevRatio = 0 then false
                  else
                    isSignificantChange kv.2 prevRatio PERFORMANCE_THRESHOLD
                      && decide (kv.2 < prevRatio))) from rfl, Bool.or_eq_true]
    _ ↔ _ := or_congr hA hB

/-- C3 witness: nx moved from a previous average of 250 to a current average of
300 — a 20% increase, which exceeds the 10% regression threshold. -/
theorem c3_regression_detection_witness :
    detectPerformanceRegression currentFixture (some previousFixture) = true := by
  have h := c3_regression_detection currentFixture previousFixture
    (by intro p hp; simp only [previousFixture] at hp; rw [← Option.some_inj.mp hp]; norm_num)
    (by intro pc k q hpc hlk; simp only [previousFixture] at hpc; cases hpc)
  refine h.2.mpr (Or.inl ⟨250, rfl, by norm_num, ?_⟩)
  simp only [currentFixture, fixtureToolResults, PERFORMANCE_THRESHOLD]
  norm_num

/-! ## Helper lemmas for result aggregation -/

/-- A missing artifact leaves the aggregation state untouched. -/
theorem combineStep_none (input : ToolName → Option SingleToolResult)
    (st : CombineState) (t : ToolName) (h : input t = none) :
    combineStep input st t = st := by
  simp only [combineStep, h]

/-- One aggregation step never touches the `comparisons` field. -/
theorem combineStep_comparisons (input : ToolName → Option SingleToolResult)
    (st : CombineState) (t : ToolName) :
    (combineStep input st t).results.comparisons = st.results.comparisons := by
  cases h : input t with
  | none => simp only [combineStep, h]
  | some s =>
    simp only [combineStep, h]
    split <;> rfl

/-- A present artifact overwrites the aggregate run count with its own. -/
theorem combineStep_some_runs (input : ToolName → Option SingleToolResult)
    (st : CombineState) (t : ToolName) (s : SingleToolResult) (h : input t = some s) :
    (combineStep input st t).results.runs = s.runs := by
  simp only [combineStep, h]
  split <;> rfl

/-- A present artifact overwrites exactly its own tool slot. -/
theorem combineStep_some_tools (input : ToolName → Option SingleToolResult)
    (st : CombineState) (t : ToolName) (s : SingleToolResult) (t' : ToolName)
    (h : input t = some s) :
    (combineStep input st t).results.tools t' =
      (if t' = t then s.results else st.results.tools t') := by
  simp only [combineStep, h]
  split <;> rfl

/-- A present artifact increments the found-artifact count. -/
theorem combineStep_some_found (input : ToolName → Option SingleToolResult)
    (st : CombineState) (t : ToolName) (s : SingleToolResult) (h : input t = some s) :
    (combineStep input st t).foundResults = st.foundResults + 1 := by
  simp only [combineStep, h]
  split <;> rfl

/-- The aggregation fold never touches the `comparisons` field. -/
theorem foldl_combineStep_comparisons (input : ToolName → Option SingleToolResult)
    (l : List ToolName) (st : CombineState) :
    (l.foldl (combineStep input) st).results.comparisons = st.results.comparisons := by
  induction l generalizing st with
  | nil => rfl
  | cons a l ih => rw [List.foldl_cons, ih, combineStep_comparisons]

/-- A tool whose artifact is absent keeps its incoming slot across the fold. -/
theorem foldl_combineStep_tools_none (input : ToolName → Option SingleToolResult)
    (l : List ToolName) (st : CombineState) (t : ToolName) (h : input t = none) :
    (l.foldl (combineStep input) st).results.tools t = st.results.tools t := by
  induction l generalizing st with
  | nil => rfl
  | cons a l ih =>
    rw [List.foldl_cons, ih]
    cases hia : input a with
    | none => rw [combineStep_none input st a hia]
    | some sa =>
      rw [combineStep_some_tools input st a sa t hia]
      have hta : ¬ t = a := fun heq => by rw [heq, hia] at h; cases h
      rw [if_neg hta]

/-- A tool whose artifact is present ends the fold holding that artifact's
results, provided the tool was processed. -/
theorem foldl_combineStep_tools_some (input : ToolName → Option SingleToolResult)
    (l : List ToolName) (st : CombineState) (t : ToolName) (s : SingleToolResult)
    (h : input t = some s) :
    (l.foldl (combineStep input) st).results.tools t =
      (if t ∈ l then s.results else st.results.tools t) := by
  induction l generalizing st with
  | nil => simp
  | cons a l ih =>
    rw [List.foldl_cons, ih]
    by_cases hl : t ∈ l
    · rw [if_pos hl, if_pos (List.mem_cons_of_mem a hl)]
    · rw [if_neg hl]
      by_cases hta : t = a
      · subst hta
        rw [combineStep_some_tools input st t s t h, if_pos rfl,
          if_pos (List.mem_cons_self t l)]
      · rw [if_neg (fun hmem => by
          rcases List.mem_cons.mp hmem with h' | h'
          · exact hta h'
          · exact hl h')]
        cases hia : input a with
        | none => rw [combineStep_none input st a hia]
        | some sa =>
          rw [combineStep_some_tools input st a sa t hia, if_neg hta]

/-- After the aggregation fold, `foundResults` has grown by the number of
present artifacts among the processed tools. -/
theorem foldl_combineStep_found (input : ToolName → Option SingleToolResult)
    (l : List ToolName) (st : CombineState) :
    (l.foldl (combineStep input) st).foundResults =
      st.foundResults + (l.filter fun t => (input t).isSome).length := by
  induction l generalizing st with
  | nil => simp
  | cons a l ih =>
    rw [List.foldl_cons, ih, List.filter_cons]
    cases hia : input a with
    | none =>
      rw [combineStep_none input st a hia]
      simp
    | some sa =>
      rw [combineStep_some_found input st a sa hia]
      simp only [Option.isSome_some, if_true, List.length_cons]
      omega

/-- After the aggregation fold, the run count is the count of the last
processed tool whose artifact is present (or the incoming count when none is). -/
theorem foldl_combineStep_runs (input : ToolName → Option SingleToolResult)
    (l : List ToolName) (st : CombineState) :
    ((l.filter fun t => (input t).isSome) = [] ∧
      (l.foldl (combineStep input) st).results.runs = st.results.runs) ∨
    (∃ t s, (l.filter fun t => (input t).isSome).getLast? = some t ∧
      input t = some s ∧
      (l.foldl (combineStep input) st).results.runs = s.runs) := by
  induction l generalizing st with
  | nil => exact Or.inl ⟨rfl, rfl⟩
  | cons a l ih =>
    rw [List.foldl_cons]
    cases hia : input a with
    | none =>
      have hfil : (a :: l).filter (fun t => (input t).isSome) =
          l.filter fun t => (input t).isSome := by
        rw [List.filter_cons, hia]
        rfl
      rw [combineStep_none input st a hia, hfil]
      exact ih st
    | some sa =>
      have hruns : (combineStep input st a).results.runs = sa.runs :=
        combineStep_some_runs input st a sa hia
      have hfil : (a :: l).filter (fun t => (input t).isSome) =
          a :: l.filter fun t => (input t).isSome := by
        rw [List.filter_cons, hia]
        rfl
      rw [hfil]
      rcases ih (combineStep input st a) with ⟨hnil, hr⟩ | ⟨t, s, hlast, hin, hr⟩
      · refine Or.inr ⟨a, sa, ?_, hia, by rw [hr, hruns]⟩
        rw [hnil]
        rfl
      · refine Or.inr ⟨t, s, ?_, hin, hr⟩
        cases hfl : l.filter fun t => (input t).isSome with
        | nil =>
          rw [hfl] at hlast
          simp at hlast
        | cons b bs =>
          rw [hfl] at hlast
          rw [List.getLast?_cons_cons]
          exact hlast

/-- The first-encountered minimiser computed by the `reduce` over tool
statistics is an element of the reduced list. -/
theorem reduceFastest_mem {α : Type} (g : α → ℚ) (l : List α) (f : α) :
    l.foldl (fun fastest current => if g current < g fastest then current else fastest) f
      ∈ f :: l := by
  induction l generalizing f with
  | nil => simp
  | cons c cs ih =>
    rw [List.foldl_cons]
    rcases List.mem_cons.mp (ih (if g c < g f then c else f)) with h | h
    · rw [h]
      by_cases hc : g c < g f <;> simp [hc]
    · exact List.mem_cons_of_mem _ (List.mem_cons_of_mem _ h)

/-- The first-encountered minimiser computed by the `reduce` over tool
statistics has minimal measure over the reduced list. -/
theorem reduceFastest_le {α : Type} (g : α → ℚ) (l : List α) (f : α) :
    ∀ x ∈ f :: l,
      g (l.foldl (fun fastest current => if g current < g fastest then current else fastest) f)
        ≤ g x := by
  induction l generalizing f with
  | nil =>
    intro x hx
    rcases List.mem_cons.mp hx with h | h
    · subst h
      simp
    · cases h
  | cons c cs ih =>
    intro x hx
    rw [List.foldl_cons]
    have hle_f : g (if g c < g f then c else f) ≤ g f := by
      by_cases hc : g c < g f
      · rw [if_pos hc]
        exact le_of_lt hc
      · rw [if_neg hc]
    have hle_c : g (if g c < g f then c else f) ≤ g c := by
      by_cases hc : g c < g f
      · rw [if_pos hc]
      · rw [if_neg hc]
        exact le_of_not_lt hc
    rcases List.mem_cons.mp hx with h | h
    · rw [h]
      exact le_trans (ih _ _ (List.mem_cons_self _ _)) hle_f
    rcases List.mem_cons.mp h with h' | h'
    · rw [h']
      exact le_trans (ih _ _ (List.mem_cons_self _ _)) hle_c
    · exact ih _ x (List.mem_cons_of_mem _ h')

/-- A duplicate-free list all of whose elements equal `t0` has at most one
element. -/
theorem length_le_one_of_nodup_of_all_eq {α : Type} (l : List α) (t0 : α)
    (hnd : l.Nodup) (hall : ∀ x ∈ l, x = t0) : l.length ≤ 1 := by
  match l with
  | [] => simp
  | [a] => simp
  | a :: b :: l' =>
    exfalso
    have ha : a = t0 := hall a (List.mem_cons_self _ _)
    have hb : b = t0 := hall b (List.mem_cons_of_mem _ (List.mem_cons_self _ _))
    have : a ∈ b :: l' := by
      rw [ha, ← hb]
      exact List.mem_cons_self _ _
    exact (List.nodup_cons.mp hnd).1 this

/-! ## C5 — aggregation edge cases -/

/-- C5: `combineResults` fails with the no-data error when zero tool artifacts
are present; with exactly one artifact present it succeeds and the resulting
`comparisons` mapping is empty. -/
theorem c5_combine_edge_cases (initTs initDate : String)
    (input : ToolName → Option SingleToolResult) (t0 : ToolName)
    (hPresent : (input t0).isSome) (hOnly : ∀ t, t ≠ t0 → input t = none) :
    combineResults initTs initDate (fun _ => none) =
      Except.error "No benchmark results found to combine" ∧
    ∃ r, combineResults initTs initDate input = Except.ok r ∧ r.comparisons = [] := by
  constructor
  · rfl
  · simp only [combineResults]
    set st := toolNames.foldl (combineStep input) (initialCombineState initTs initDate)
      with hst
    have hfound : ¬ st.foundResults = 0 := by
      rw [hst, foldl_combineStep_found]
      have hmem : t0 ∈ toolNames.filter fun t => (input t).isSome :=
        List.mem_filter.mpr ⟨ToolName.mem_toolNames t0, hPresent⟩
      have hpos := List.length_pos_of_mem hmem
      omega
    rw [if_neg hfound]
    have htools : ∀ x, x ≠ t0 → (st.results.tools x).average = 0 := by
      intro x hx
      rw [hst, foldl_combineStep_tools_none input toolNames _ x (hOnly x hx)]
      rfl
    have hlen : ¬ 1 <
        (toolNames.filter fun name => 0 < (st.results.tools name).average).length := by
      have hall : ∀ x ∈ toolNames.filter
          fun name => 0 < (st.results.tools name).average, x = t0 := by
        intro x hxmem
        rcases List.mem_filter.mp hxmem with ⟨-, hpx⟩
        by_contra hne
        rw [htools x hne] at hpx
        simp at hpx
      have hle := length_le_one_of_nodup_of_all_eq
        (toolNames.filter fun name => 0 < (st.results.tools name).average) t0
        (List.Nodup.filter _ (by decide)) hall
      omega
    rw [if_neg hlen]
    refine ⟨st.results, rfl, ?_⟩
    rw [hst, foldl_combineStep_comparisons]
    rfl

/-- C5 witness: with only the nx artifact present, aggregation succeeds with an
empty comparisons mapping (and the all-absent case yields the no-data error). -/
theorem c5_combine_edge_cases_witness :
    combineResults "2024-01-01T00:00:00.000Z" "1/1/2024" (fun _ => none) =
      Except.error "No benchmark results found to combine" ∧
    ∃ r, combineResults "2024-01-01T00:00:00.000Z" "1/1/2024" combineSingleInputFixture =
      Except.ok r ∧ r.comparisons = [] :=
  c5_combine_edge_cases "2024-01-01T00:00:00.000Z" "1/1/2024" combineSingleInputFixture
    ToolName.nx (by decide) (by decide)

/-! ## C6 — comparison ratios are at least 1 -/

/-- C6: in every aggregate produced by `combineResults`, each comparison entry
is `other.average / fastest.average` where the fastest tool's average is
positive and minimal among the tools with positive average, the fastest tool
never appears as the `other` side, and consequently every ratio is ≥ 1. -/
theorem c6_comparison_ratios_ge_one (initTs initDate : String)
    (input : ToolName → Option SingleToolResult) (r : BenchmarkResults)
    (h : combineResults initTs initDate input = Except.ok r) :
    ∀ p ∈ r.comparisons, ∃ fastest other : ToolName,
      other ≠ fastest ∧
      0 < (r.tools fastest).average ∧
      0 < (r.tools other).average ∧
      (∀ t : ToolName, 0 < (r.tools t).average →
        (r.tools fastest).average ≤ (r.tools t).average) ∧
      p = (comparisonKey fastest other,
        (r.tools other).average / (r.tools fastest).average) ∧
      (1 : ℚ) ≤ p.2 := by
  simp only [combineResults] at h
  set st := toolNames.foldl (combineStep input) (initialCombineState initTs initDate)
    with hst
  by_cases hfound : st.foundResults = 0
  · rw [if_pos hfound] at h
    cases h
  rw [if_neg hfound] at h
  by_cases hlen : 1 <
      (toolNames.filter fun name => 0 < (st.results.tools name).average).length
  case neg =>
    rw [if_neg hlen] at h
    have hr : r = st.results := (Except.ok.inj h).symm
    intro p hp
    rw [hr, hst, foldl_combineStep_comparisons] at hp
    simp [initialCombineState] at hp
  case pos =>
    rw [if_pos hlen] at h
    cases hts : toolNames.filter fun name => 0 < (st.results.tools name).average with
    | nil =>
      rw [hts] at hlen
      simp at hlen
    | cons f rest =>
      rw [hts] at h
      have hr : r = _ := (Except.ok.inj h).symm
      have htools : r.tools = st.results.tools := by rw [hr]
      have hcomp : r.comparisons = toolNames.filterMap fun toolName =>
          if toolName ≠ rest.foldl
              (fun fastest current =>
                if (st.results.tools current).average < (st.results.tools fastest).average
                then current else fastest) f ∧
              0 < (st.results.tools toolName).average then
            some (comparisonKey
                (rest.foldl
                  (fun fastest current =>
                    if (st.results.tools current).average < (st.results.tools fastest).average
                    then current else fastest) f) toolName,
              (st.results.tools toolName).average /
                (st.results.tools (rest.foldl
                  (fun fastest current =>
                    if (st.results.tools current).average < (st.results.tools fastest).average
                    then current else fastest) f)).average)
          else none := by rw [hr]
      set fastest := rest.foldl
        (fun fastest current =>
          if (st.results.tools current).average < (st.results.tools fastest).average
          then current else fastest) f with hfast
      have hmemf : fastest ∈ f :: rest := by
        rw [hfast]
        exact reduceFastest_mem (fun t => (st.results.tools t).average) rest f
      have hle : ∀ x ∈ f :: rest,
          (st.results.tools fastest).average ≤ (st.results.tools x).average := by
        intro x hx
        rw [hfast]
        exact reduceFastest_le (fun t => (st.results.tools t).average) rest f x hx
      have hmemff : fastest ∈ toolNames.filter
          fun name => 0 < (st.results.tools name).average := by
        rw [hts]
        exact hmemf
      have hfpos : 0 < (st.results.tools fastest).average :=
        of_decide_eq_true (List.mem_filter.mp hmemff).2
      have hmin : ∀ t : ToolName, 0 < (st.results.tools t).average →
          (st.results.tools fastest).average ≤ (st.results.tools t).average := by
        intro t ht
        have htf : t ∈ toolNames.filter fun name => 0 < (st.results.tools name).average :=
          List.mem_filter.mpr ⟨ToolName.mem_toolNames t, decide_eq_true ht⟩
        rw [hts] at htf
        exact hle t htf
      intro p hp
      rw [hcomp] at hp
      rcases List.mem_filterMap.mp hp with ⟨other, -, hosome⟩
      by_cases hcond : other ≠ fastest ∧ 0 < (st.results.tools other).average
      · rw [if_pos hcond] at hosome
        have hpe := (Option.some_inj.mp hosome).symm
        rw [htools]
        refine ⟨fastest, other, hcond.1, hfpos, hcond.2, hmin, hpe, ?_⟩
        rw [hpe]
        exact (one_le_div hfpos).mpr (hmin other hcond.2)
      · rw [if_neg hcond] at hosome
        cases hosome

/-- C6 witness: on the two-tool fixture (nx average 2, turbo average 4) the
entry `("nxVsTurbo", 4/2)` of the produced comparisons satisfies the ratio
characterisation. -/
theorem c6_comparison_ratios_ge_one_witness :
    ∃ fastest other : ToolName,
      other ≠ fastest ∧
      0 < (combinedFixture.tools fastest).average ∧
      0 < (combinedFixture.tools other).average ∧
      (∀ t : ToolName, 0 < (combinedFixture.tools t).average →
        (combinedFixture.tools fastest).average ≤ (combinedFixture.tools t).average) ∧
      (("nxVsTurbo", (4 : ℚ) / 2) : String × ℚ) = (comparisonKey fastest other,
        (combinedFixture.tools other).average / (combinedFixture.tools fastest).average) ∧
      (1 : ℚ) ≤ (("nxVsTurbo", (4 : ℚ) / 2) : String × ℚ).2 :=
  c6_comparison_ratios_ge_one "2024-01-01T00:00:00.000Z" "1/1/2024" combineInputFixture
    combinedFixture (by rfl) ("nxVsTurbo", (4 : ℚ) / 2)
    (by rw [show combinedFixture.comparisons = [("nxVsTurbo", (4 : ℚ) / 2)] from rfl]
        exact List.mem_singleton.mpr rfl)

/-! ## C10 — the aggregate run count comes from the last loaded artifact -/

/-- C10: when no artifact loads, `combineResults` throws before returning; when
it returns, its `runs` field equals the runs count of the last tool — in the
fixed iteration order nx, turbo, lerna, lage, moon — whose artifact is present
and parses, since every successfully loaded artifact overwrites the field in
turn. -/
theorem c10_runs_from_last_loaded (initTs initDate : String)
    (input : ToolName → Option SingleToolResult) :
    ((∀ t, input t = none) →
      combineResults initTs initDate input =
        Except.error "No benchmark results found to combine") ∧
    (∀ r, combineResults initTs initDate input = Except.ok r →
      ∃ t s, (toolNames.filter fun t => (input t).isSome).getLast? = some t ∧
        input t = some s ∧ r.runs = s.runs) := by
  constructor
  · intro hnone
    simp only [combineResults]
    set st := toolNames.foldl (combineStep input) (initialCombineState initTs initDate)
      with hst
    have hfound : st.foundResults = 0 := by
      rw [hst, foldl_combineStep_found]
      have hfil : (toolNames.filter fun t => (input t).isSome) = [] :=
        List.filter_eq_nil_iff.mpr (fun t _ => by rw [hnone t]; simp)
      rw [hfil]
      rfl
    rw [if_pos hfound]
  · intro r h
    simp only [combineResults] at h
    set st := toolNames.foldl (combineStep input) (initialCombineState initTs initDate)
      with hst
    by_cases hfound : st.foundResults = 0
    · rw [if_pos hfound] at h
      cases h
    rw [if_neg hfound] at h
    rcases foldl_combineStep_runs input toolNames (initialCombineState initTs initDate)
      with ⟨hnil, -⟩ | ⟨t, s, hlast, hin, hruns⟩
    · exfalso
      apply hfound
      rw [hst, foldl_combineStep_found, hnil]
      rfl
    · refine ⟨t, s, hlast, hin, ?_⟩
      have hrr : r.runs = st.results.runs := by
        by_cases hlen : 1 <
            (toolNames.filter fun name => 0 < (st.results.tools name).average).length
        · rw [if_pos hlen] at h
          cases hts : toolNames.filter fun name => 0 < (st.results.tools name).average with
          | nil =>
            rw [hts] at hlen
            simp at hlen
          | cons f rest =>
            rw [hts] at h
            have hr : r = _ := (Except.ok.inj h).symm
            rw [hr]
        · rw [if_neg hlen] at h
          have hr : r = st.results := (Except.ok.inj h).symm
          rw [hr]
      rw [hrr, hst]
      exact hruns

/-- C10 witness: on the two-tool fixture the last present artifact in iteration
order is turbo's, and the aggregate adopts its runs count. -/
theorem c10_runs_from_last_loaded_witness :
    ∃ t s, (toolNames.filter fun t => (combineInputFixture t).isSome).getLast? = some t ∧
      combineInputFixture t = some s ∧ combinedFixture.runs = s.runs :=
  (c10_runs_from_last_loaded "2024-01-01T00:00:00.000Z" "1/1/2024" combineInputFixture).2
    combinedFixture (by rfl)
